import Mathlib

/-!
Shallow embedding of the client connection engine of `src/client.c`
(a single-threaded epoll-driven TCP client that streams files to a server
and waits for a textual `Ack\n` token before closing each connection).

Modelling conventions:
* Bytes are `Nat`; a file stream (`FILE* fp`) is the list of bytes not yet
  consumed by `fread`, wrapped in `Option` (`none` models `fp == NULL`).
* File descriptors are `Nat`; `socket_fd = 0` is the sentinel the code
  stores after closing a connection.
* The epoll registration set, the log of descriptors passed to `close`,
  and the `conn_cnt` counter live in a `Sys` record threaded through the
  handlers.  `close(fd)` is modelled as appending `fd` to the log.
* Calls that can fail with process exit (`exit(1)`) are modelled with
  `Except Nat`, the error payload being the exit status.
* What the network delivers to `recv`, and what `send` reports, are
  oracle inputs (`RecvRes` scripts and `SendRes`), since they depend on
  the environment, not on the program.
* `epoll_wait` blocking forever (no more ready events) is modelled by
  `Option`: `none` means the program is still blocked.
-/

namespace ClientC

/-- BUFLEN from client.c: capacity of every scratch buffer. -/
def BUFLEN : Nat := 64

/-- The acknowledgment token "Ack\n" as bytes (compared by strncmp(..,..,4)). -/
def ackToken : List Nat := [65, 99, 107, 10]

/-- struct connection_ctx: socket descriptor (0 once closed), the file
stream (`none` once fclose'd), and the per-connection scratch buffer. -/
structure Conn where
  socket_fd : Nat
  fp : Option (List Nat)
  buffer : List Nat
deriving Repr, DecidableEq

/-- Process-level state threaded through the handlers: the set of
descriptors currently registered with epoll, the ordered log of
descriptors passed to `close`, and the `conn_cnt` counter. -/
structure Sys where
  reg : List Nat
  closed : List Nat
  cnt : Int
deriving Repr, DecidableEq

/-- One result of a `recv` call: `bytes chunk` is a return value of
`chunk.length` (so `bytes []` is the orderly-shutdown return 0);
the other constructors are `-1` returns with the matching errno. -/
inductive RecvRes where
  | bytes (chunk : List Nat)
  | eagain
  | reset
  | errOther
deriving Repr, DecidableEq

/-- How a drain loop ended: which non-positive `recv` result stopped it. -/
inductive RecvTerm where
  | orderly
  | eagain
  | reset
  | errOther
deriving Repr, DecidableEq

/-- Result of a `send` call: `ok sent` is a non-negative return value;
the error constructors are `-1` returns with the matching errno. -/
inductive SendRes where
  | ok (sent : Nat)
  | errWouldBlock
  | errOther
deriving Repr, DecidableEq

/-- close_connection (client.c:62-95): EPOLL_CTL_DEL then close.
`epoll_ctl` fails (ENOENT etc.) when the descriptor is not registered,
and every failure branch of the switch calls `exit(1)`; on success the
descriptor is deregistered and closed (appended to the close log). -/
def close_connection (s : Sys) (connfd : Nat) : Except Nat Sys :=
  if connfd ∈ s.reg then
    Except.ok { s with reg := s.reg.erase connfd, closed := s.closed ++ [connfd] }
  else
    Except.error 1

/-- The EPOLLIN drain loop (client.c:323-329):
`while (0 < (received = recv(...)))` accumulating `total_bytes_in` and
overwriting the first `received` bytes of the local buffer each time.
Returns the accumulated total, the final buffer contents, and which
non-positive result ended the loop (`none` if the script ran out, i.e.
the environment never answered another `recv`). -/
def drainLoop : List RecvRes → List Nat → Nat → Option (Nat × List Nat × RecvTerm)
  | [], _, _ => none
  | RecvRes.bytes chunk :: rest, buf, total =>
    if chunk.length = 0 then some (total, buf, RecvTerm.orderly)
    else drainLoop rest (chunk ++ buf.drop chunk.length) (total + chunk.length)
  | RecvRes.eagain :: _, buf, total => some (total, buf, RecvTerm.eagain)
  | RecvRes.reset :: _, buf, total => some (total, buf, RecvTerm.reset)
  | RecvRes.errOther :: _, buf, total => some (total, buf, RecvTerm.errOther)

/-- The switch on the drain loop's final `recv` result (client.c:331-371):
EAGAIN does nothing; ECONNRESET closes this connection and decrements
`conn_cnt`; any other errno calls `exit(1)`; a 0 return with zero bytes
accumulated closes the connection and decrements `conn_cnt`. -/
def recvSwitch (conn : Conn) (sys : Sys) (total : Nat) (term : RecvTerm) :
    Except Nat (Conn × Sys) :=
  match term with
  | RecvTerm.eagain => Except.ok (conn, sys)
  | RecvTerm.reset =>
    match close_connection sys conn.socket_fd with
    | Except.error c => Except.error c
    | Except.ok sys1 =>
      Except.ok ({ conn with socket_fd := 0 }, { sys1 with cnt := sys1.cnt - 1 })
  | RecvTerm.errOther => Except.error 1
  | RecvTerm.orderly =>
    if total = 0 then
      match close_connection sys conn.socket_fd with
      | Except.error c => Except.error c
      | Except.ok sys1 =>
        Except.ok ({ conn with socket_fd := 0 }, { sys1 with cnt := sys1.cnt - 1 })
    else Except.ok (conn, sys)

/-- The `strncmp(buffer, "Ack\n", 4)` check (client.c:376-387): on a
match, set `acknowledged`; if moreover `fp` is already NULL (all data
sent), close the connection and decrement `conn_cnt`. -/
def ackCheck (conn : Conn) (sys : Sys) (buf : List Nat) :
    Except Nat (Conn × Sys × Bool) :=
  if buf.take 4 = ackToken then
    if conn.fp = none then
      match close_connection sys conn.socket_fd with
      | Except.error c => Except.error c
      | Except.ok sys2 =>
        Except.ok ({ conn with socket_fd := 0 }, { sys2 with cnt := sys2.cnt - 1 }, true)
    else Except.ok (conn, sys, true)
  else Except.ok (conn, sys, false)

/-- The EPOLLIN block (client.c:316-388): drain the socket, then the
switch on the final `recv` result, then the acknowledgment check.
`buf0` is the content of the uninitialized local `char buffer[BUFLEN]`.
The returned `Bool` is the `acknowledged` flag handed to the EPOLLOUT
block of the same event. -/
def readHandler (conn : Conn) (sys : Sys) (buf0 : List Nat) (script : List RecvRes) :
    Option (Except Nat (Conn × Sys × Bool)) :=
  match drainLoop script buf0 0 with
  | none => none
  | some (total, buf, term) =>
    match recvSwitch conn sys total term with
    | Except.error c => some (Except.error c)
    | Except.ok (conn1, sys1) => some (ackCheck conn1 sys1 buf)

/-- The EPOLLOUT block (client.c:390-454), guarded by
`NULL != conn->fp && 0 != conn->socket_fd`.  `fread` reads up to BUFLEN
bytes into `conn.buffer`; a non-zero read is sent (any `-1` from `send`,
EWOULDBLOCK included, falls through the errno switch to `exit(1)`), and
a read shorter than BUFLEN closes the file; a zero read closes the file
and, if `acknowledged` was set by this event's EPOLLIN block, closes the
connection.  Returns the bytes actually transmitted this event (the
first `sent` bytes of the chunk handed to `send`). -/
def writeHandler (conn : Conn) (sys : Sys) (acknowledged : Bool) (sendRes : SendRes) :
    Except Nat (Conn × Sys × List Nat) :=
  match conn.fp with
  | none => Except.ok (conn, sys, [])
  | some src =>
    if conn.socket_fd ≠ 0 then
      let chunk := src.take BUFLEN
      let nbytes := chunk.length
      let conn1 : Conn := { conn with buffer := chunk ++ conn.buffer.drop nbytes }
      if nbytes ≠ 0 then
        match sendRes with
        | SendRes.errWouldBlock => Except.error 1
        | SendRes.errOther => Except.error 1
        | SendRes.ok sent =>
          let conn2 : Conn :=
            if nbytes < BUFLEN then { conn1 with fp := none }
            else { conn1 with fp := some (src.drop BUFLEN) }
          Except.ok (conn2, sys, chunk.take sent)
      else
        let conn2 : Conn := { conn1 with fp := none }
        if acknowledged then
          match close_connection sys conn2.socket_fd with
          | Except.error c => Except.error c
          | Except.ok sys1 =>
            Except.ok ({ conn2 with socket_fd := 0 }, { sys1 with cnt := sys1.cnt - 1 }, [])
        else Except.ok (conn2, sys, [])
    else Except.ok (conn, sys, [])

/-- The environment-dependent inputs of one epoll event for one
connection: which readiness bits were reported, the contents of the
uninitialized local recv buffer, the script of `recv` results, and the
result of the (at most one) `send` call. -/
structure EventInput where
  epollin : Bool
  epollout : Bool
  buf0 : List Nat
  script : List RecvRes
  sendRes : SendRes
deriving Repr, DecidableEq

/-- Processing of one epoll event (client.c:307-460): `acknowledged`
starts at 0, the EPOLLIN block runs first, then the EPOLLOUT block
(EPOLLERR only prints).  Returns the updated connection and system state
together with the bytes transmitted during this event. -/
def handleEvent (conn : Conn) (sys : Sys) (ev : EventInput) :
    Option (Except Nat (Conn × Sys × List Nat)) :=
  let rres : Option (Except Nat (Conn × Sys × Bool)) :=
    if ev.epollin then readHandler conn sys ev.buf0 ev.script
    else some (Except.ok (conn, sys, false))
  match rres with
  | none => none
  | some (Except.error c) => some (Except.error c)
  | some (Except.ok (conn1, sys1, ack)) =>
    if ev.epollout then
      match writeHandler conn1 sys1 ack ev.sendRes with
      | Except.error c => some (Except.error c)
      | Except.ok (conn2, sys2, tx) => some (Except.ok (conn2, sys2, tx))
    else some (Except.ok (conn1, sys1, []))

/-- A sequence of events delivered to one connection, accumulating the
transmitted bytes across events. -/
def runEvents (conn : Conn) (sys : Sys) (tx : List Nat) :
    List EventInput → Option (Except Nat (Conn × Sys × List Nat))
  | [] => some (Except.ok (conn, sys, tx))
  | ev :: rest =>
    match handleEvent conn sys ev with
    | none => none
    | some (Except.error c) => some (Except.error c)
    | some (Except.ok (conn1, sys1, t)) => runEvents conn1 sys1 (tx ++ t) rest

/-- Dispatch one event to the connection record its `data.ptr` tag names
(client.c:309); an index outside the registry is a no-op (epoll only
tags events with live records). -/
def handleEventAt (conns : List Conn) (sys : Sys) (i : Nat) (ev : EventInput) :
    Option (Except Nat (List Conn × Sys)) :=
  match conns[i]? with
  | none => some (Except.ok (conns, sys))
  | some conn =>
    match handleEvent conn sys ev with
    | none => none
    | some (Except.error c) => some (Except.error c)
    | some (Except.ok (conn1, sys1, _tx)) => some (Except.ok (conns.set i conn1, sys1))

/-- The inner for-loop over one `epoll_wait` batch (client.c:307). -/
def handleBatch (conns : List Conn) (sys : Sys) :
    List (Nat × EventInput) → Option (Except Nat (List Conn × Sys))
  | [] => some (Except.ok (conns, sys))
  | (i, ev) :: rest =>
    match handleEventAt conns sys i ev with
    | none => none
    | some (Except.error c) => some (Except.error c)
    | some (Except.ok (conns1, sys1)) => handleBatch conns1 sys1 rest

/-- The event loop `while (0 < conn_cnt)` (client.c:285-462): test the
guard, block in `epoll_wait` for the next batch (`none` models blocking
forever because the environment delivers no further batch), process the
batch, repeat.  A normal return is the state at loop exit. -/
def eventLoop : List Conn → Sys → List (List (Nat × EventInput)) →
    Option (Except Nat (List Conn × Sys))
  | conns, sys, batches =>
    if sys.cnt ≤ 0 then some (Except.ok (conns, sys))
    else
      match batches with
      | [] => none
      | b :: rest =>
        match handleBatch conns sys b with
        | none => none
        | some (Except.error c) => some (Except.error c)
        | some (Except.ok (conns1, sys1)) => eventLoop conns1 sys1 rest

/-- clear_connection_ctx_list (client.c:31-60): walk the registry,
`close` every record whose `socket_fd` is not the 0 sentinel, `fclose`
open files, free the records.  Modelled by its effect on the close log. -/
def clear_connection_ctx_list (conns : List Conn) (closed : List Nat) : List Nat :=
  closed ++ (conns.filter (fun c => c.socket_fd != 0)).map (fun c => c.socket_fd)

/-- The registration loop (client.c:109-237), one step per command-line
argument.  An argument is `none` when `fopen` failed (silently skipped)
and `some (fd, content)` when it yielded an open file and a connected
socket `fd` (socket/connect/fcntl failures call `exit` and are outside
this model).  `allocOk` is whether `malloc` returned a record.  Note the
source increments `conn_cnt` (client.c:235) outside the
`NULL != new_conn` check, so the count grows even when no record exists. -/
def setupStep (acc : List Conn × Int) (arg : Option (Nat × List Nat)) (allocOk : Bool) :
    List Conn × Int :=
  match arg with
  | none => acc
  | some (fd, content) =>
    let conns := if allocOk
      then acc.1 ++ [{ socket_fd := fd, fp := some content, buffer := List.replicate BUFLEN 0 }]
      else acc.1
    (conns, acc.2 + 1)

/-- The whole registration loop over the argument list, zipped with the
per-argument `malloc` outcomes. -/
def setupLoop (args : List (Option (Nat × List Nat))) (allocs : List Bool) :
    List Conn × Int :=
  (args.zip allocs).foldl (fun acc p => setupStep acc p.1 p.2) ([], 0)

/-- Number of connection records whose socket has not been closed. -/
def openCount (conns : List Conn) : Nat :=
  conns.countP (fun c => c.socket_fd != 0)

/-- The driver invariant: `conn_cnt` equals the number of still-open
records, and the 0 sentinel is never a registered descriptor. -/
def Inv (conns : List Conn) (sys : Sys) : Prop :=
  sys.cnt = (openCount conns : Int) ∧ 0 ∉ sys.reg

/-- Bookkeeping soundness of the close log: no descriptor closed twice,
epoll registrations unique, and no closed descriptor still registered. -/
def SysOk (sys : Sys) : Prop :=
  sys.closed.Nodup ∧ sys.reg.Nodup ∧ ∀ f ∈ sys.closed, f ∉ sys.reg

/-- A list of `n` zero bytes (used for concrete buffers below). -/
def zeros (n : Nat) : List Nat := List.replicate n 0

/-- Whether a `recv` result is a positive byte count (keeps the drain
loop running). -/
def isData : RecvRes → Bool
  | RecvRes.bytes chunk => chunk.length != 0
  | RecvRes.eagain => false
  | RecvRes.reset => false
  | RecvRes.errOther => false

/-- The drain-loop terminator corresponding to a non-positive `recv`
result. -/
def termOf : RecvRes → RecvTerm
  | RecvRes.bytes _ => RecvTerm.orderly
  | RecvRes.eagain => RecvTerm.eagain
  | RecvRes.reset => RecvTerm.reset
  | RecvRes.errOther => RecvTerm.errOther

/-- Successful close_connection: the descriptor was registered; it is
deregistered and appended to the close log, `conn_cnt` untouched here. -/
theorem close_connection_ok (s : Sys) (fd : Nat) (s1 : Sys)
    (h : close_connection s fd = Except.ok s1) :
    fd ∈ s.reg ∧ s1 = ⟨s.reg.erase fd, s.closed ++ [fd], s.cnt⟩ := by
  unfold close_connection at h
  split at h
  · rename_i hmem
    exact ⟨hmem, by simp_all⟩
  · simp_all

/-- The transition a record can make in `recvSwitch`: either nothing
changes, or the (open, registered) socket is closed exactly once. -/
theorem recvSwitch_delta (conn : Conn) (sys : Sys) (total : Nat) (term : RecvTerm)
    (conn1 : Conn) (sys1 : Sys) (h0 : 0 ∉ sys.reg)
    (h : recvSwitch conn sys total term = Except.ok (conn1, sys1)) :
    (conn1 = conn ∧ sys1 = sys) ∨
    (conn.socket_fd ≠ 0 ∧ conn.socket_fd ∈ sys.reg ∧
     conn1 = { conn with socket_fd := 0 } ∧
     sys1 = ⟨sys.reg.erase conn.socket_fd, sys.closed ++ [conn.socket_fd], sys.cnt - 1⟩) := by
  cases term <;> simp only [recvSwitch] at h
  · -- orderly
    split at h
    · split at h
      · simp at h
      · rename_i sys' heq
        obtain ⟨hmem, hseq⟩ := close_connection_ok sys conn.socket_fd sys' heq
        subst hseq
        right
        refine ⟨fun hz => h0 (hz ▸ hmem), hmem, ?_, ?_⟩ <;> simp_all
    · left; constructor <;> simp_all
  · -- eagain
    left; constructor <;> simp_all
  · -- reset
    split at h
    · simp at h
    · rename_i sys' heq
      obtain ⟨hmem, hseq⟩ := close_connection_ok sys conn.socket_fd sys' heq
      subst hseq
      right
      refine ⟨fun hz => h0 (hz ▸ hmem), hmem, ?_, ?_⟩ <;> simp_all
  · -- errOther: exits the process, never an ok result
    simp at h

/-- The transition the acknowledgment check can make: either nothing
changes (up to the `acknowledged` flag), or the (open, registered)
socket is closed exactly once. -/
theorem ackCheck_delta (conn : Conn) (sys : Sys) (buf : List Nat)
    (conn1 : Conn) (sys1 : Sys) (ack : Bool) (h0 : 0 ∉ sys.reg)
    (h : ackCheck conn sys buf = Except.ok (conn1, sys1, ack)) :
    (conn1 = conn ∧ sys1 = sys) ∨
    (conn.socket_fd ≠ 0 ∧ conn.socket_fd ∈ sys.reg ∧
     conn1 = { conn with socket_fd := 0 } ∧
     sys1 = ⟨sys.reg.erase conn.socket_fd, sys.closed ++ [conn.socket_fd], sys.cnt - 1⟩) := by
  simp only [ackCheck] at h
  split at h
  · split at h
    · split at h
      · simp at h
      · rename_i sys' heq
        obtain ⟨hmem, hseq⟩ := close_connection_ok sys conn.socket_fd sys' heq
        subst hseq
        right
        refine ⟨fun hz => h0 (hz ▸ hmem), hmem, ?_, ?_⟩ <;> simp_all
    · left; constructor <;> simp_all
  · left; constructor <;> simp_all

/-- The transition one EPOLLIN block can make: either the connection and
the system bookkeeping are untouched, or the (open, registered) socket
is closed exactly once, deregistered, logged, and `conn_cnt` drops by 1. -/
theorem readHandler_delta (conn : Conn) (sys : Sys) (buf0 : List Nat)
    (script : List RecvRes) (conn1 : Conn) (sys1 : Sys) (ack : Bool)
    (h0 : 0 ∉ sys.reg)
    (h : readHandler conn sys buf0 script = some (Except.ok (conn1, sys1, ack))) :
    (conn1 = conn ∧ sys1 = sys) ∨
    (conn.socket_fd ≠ 0 ∧ conn.socket_fd ∈ sys.reg ∧
     conn1 = { conn with socket_fd := 0 } ∧
     sys1 = ⟨sys.reg.erase conn.socket_fd, sys.closed ++ [conn.socket_fd], sys.cnt - 1⟩) := by
  unfold readHandler at h
  split at h
  · exact absurd h (by simp)
  · rename_i total buf term heqd
    split at h
    · exact absurd h (by simp)
    · rename_i conn' sys' hstep
      have h1 := recvSwitch_delta conn sys total term conn' sys' h0 hstep
      have h2 : ackCheck conn' sys' buf = Except.ok (conn1, sys1, ack) := by
        injection h
      rcases h1 with ⟨hc, hs⟩ | ⟨hne, hmem, hc, hs⟩
      · rw [hc, hs] at h2
        exact ackCheck_delta _ _ buf conn1 sys1 ack h0 h2
      · rw [hc, hs] at h2
        have h0' : (0 : Nat) ∉ sys.reg.erase conn.socket_fd :=
          fun hz => h0 (List.erase_subset _ _ hz)
        have h3 := ackCheck_delta _ _ buf conn1 sys1 ack h0' h2
        rcases h3 with ⟨hc1, hs1⟩ | ⟨hne1, hmem1, _, _⟩
        · right; exact ⟨hne, hmem, hc1, hs1⟩
        · simp at hne1

/-- The transition one EPOLLOUT block can make: either the socket stays
as it was (only `fp`/`buffer` may change) and the system bookkeeping is
untouched, or the (open, registered) socket is closed exactly once. -/
theorem writeHandler_delta (conn : Conn) (sys : Sys) (ack : Bool) (r : SendRes)
    (conn1 : Conn) (sys1 : Sys) (tx : List Nat) (h0 : 0 ∉ sys.reg)
    (h : writeHandler conn sys ack r = Except.ok (conn1, sys1, tx)) :
    (conn1.socket_fd = conn.socket_fd ∧ sys1 = sys) ∨
    (conn.socket_fd ≠ 0 ∧ conn.socket_fd ∈ sys.reg ∧ conn1.socket_fd = 0 ∧
     sys1 = ⟨sys.reg.erase conn.socket_fd, sys.closed ++ [conn.socket_fd], sys.cnt - 1⟩) := by
  rcases hfp : conn.fp with _ | src
  · simp only [writeHandler, hfp, Except.ok.injEq, Prod.mk.injEq] at h
    left; constructor <;> simp_all
  · by_cases hfd : conn.socket_fd = 0
    · simp only [writeHandler, hfp, hfd, ne_eq, not_true_eq_false, if_false,
        Except.ok.injEq, Prod.mk.injEq] at h
      left; constructor <;> simp_all
    · by_cases hnb : (src.take BUFLEN).length = 0
      · -- zero-byte fread: the end-of-file branch
        by_cases hack : ack = true
        · simp only [writeHandler, hfp, hfd, hnb, hack, ne_eq, not_false_eq_true,
            if_true, not_true_eq_false, if_false, ite_true] at h
          cases hcc : close_connection sys conn.socket_fd with
          | error c => rw [hcc] at h; simp at h
          | ok sys' =>
            rw [hcc] at h
            obtain ⟨hmem, hseq⟩ := close_connection_ok sys conn.socket_fd sys' hcc
            subst hseq
            simp only [Except.ok.injEq, Prod.mk.injEq] at h
            obtain ⟨hc, hs, htx⟩ := h
            subst hc; subst hs
            right
            exact ⟨hfd, hmem, rfl, rfl⟩
        · simp only [writeHandler, hfp, hfd, hnb, hack, ne_eq, not_false_eq_true,
            if_true, not_true_eq_false, if_false] at h
          rw [if_neg Bool.false_ne_true] at h
          simp only [Except.ok.injEq, Prod.mk.injEq] at h
          obtain ⟨hc, hs, htx⟩ := h
          subst hc
          exact Or.inl ⟨rfl, hs.symm⟩
      · -- a non-empty chunk was read and handed to send
        cases r with
        | ok sent =>
          by_cases hlt : (src.take BUFLEN).length < BUFLEN
          · simp only [writeHandler, hfp, hfd, hnb, hlt, ne_eq, not_false_eq_true,
              if_true, ite_true, Except.ok.injEq, Prod.mk.injEq] at h
            obtain ⟨hc, hs, htx⟩ := h
            subst hc
            exact Or.inl ⟨rfl, hs.symm⟩
          · simp only [writeHandler, hfp, hfd, hnb, hlt, ne_eq, not_false_eq_true,
              if_true, ite_false, Except.ok.injEq, Prod.mk.injEq] at h
            obtain ⟨hc, hs, htx⟩ := h
            subst hc
            exact Or.inl ⟨rfl, hs.symm⟩
        | errWouldBlock =>
          simp only [writeHandler, hfp, hfd, hnb, ne_eq, not_false_eq_true, if_true] at h
          simp at h
        | errOther =>
          simp only [writeHandler, hfp, hfd, hnb, ne_eq, not_false_eq_true, if_true] at h
          simp at h

/-- The transition one whole epoll event can make for its connection:
either the socket identity is untouched and so is the system
bookkeeping, or the (open, registered) socket is closed exactly once:
deregistered, appended once to the close log, `conn_cnt` dropped by 1. -/
theorem handleEvent_delta (conn : Conn) (sys : Sys) (ev : EventInput)
    (conn1 : Conn) (sys1 : Sys) (tx : List Nat) (h0 : 0 ∉ sys.reg)
    (h : handleEvent conn sys ev = some (Except.ok (conn1, sys1, tx))) :
    (conn1.socket_fd = conn.socket_fd ∧ sys1.cnt = sys.cnt ∧
     sys1.closed = sys.closed ∧ sys1.reg = sys.reg) ∨
    (conn.socket_fd ≠ 0 ∧ conn.socket_fd ∈ sys.reg ∧ conn1.socket_fd = 0 ∧
     sys1.cnt = sys.cnt - 1 ∧ sys1.closed = sys.closed ++ [conn.socket_fd] ∧
     sys1.reg = sys.reg.erase conn.socket_fd) := by
  -- first reduce the EPOLLIN part to a characterized (conn', sys', ack)
  have main : ∀ (conn' : Conn) (sys' : Sys) (ack : Bool),
      ((conn' = conn ∧ sys' = sys) ∨
       (conn.socket_fd ≠ 0 ∧ conn.socket_fd ∈ sys.reg ∧
        conn' = { conn with socket_fd := 0 } ∧
        sys' = ⟨sys.reg.erase conn.socket_fd, sys.closed ++ [conn.socket_fd],
                sys.cnt - 1⟩)) →
      (if ev.epollout then
        match writeHandler conn' sys' ack ev.sendRes with
        | Except.error c => some (Except.error c)
        | Except.ok (conn2, sys2, tx2) => some (Except.ok (conn2, sys2, tx2))
      else some (Except.ok (conn', sys', ([] : List Nat)))) =
        some (Except.ok (conn1, sys1, tx)) →
      (conn1.socket_fd = conn.socket_fd ∧ sys1.cnt = sys.cnt ∧
       sys1.closed = sys.closed ∧ sys1.reg = sys.reg) ∨
      (conn.socket_fd ≠ 0 ∧ conn.socket_fd ∈ sys.reg ∧ conn1.socket_fd = 0 ∧
       sys1.cnt = sys.cnt - 1 ∧ sys1.closed = sys.closed ++ [conn.socket_fd] ∧
       sys1.reg = sys.reg.erase conn.socket_fd) := by
    intro conn' sys' ack hr hw
    by_cases hout : ev.epollout = true
    · rw [if_pos hout] at hw
      cases hwrite : writeHandler conn' sys' ack ev.sendRes with
      | error c => rw [hwrite] at hw; simp at hw
      | ok t2 =>
        obtain ⟨conn2, sys2, tx2⟩ := t2
        rw [hwrite] at hw
        simp only [Option.some.injEq, Except.ok.injEq, Prod.mk.injEq] at hw
        obtain ⟨hc2, hs2, htx2⟩ := hw
        rw [hc2, hs2, htx2] at hwrite
        rcases hr with ⟨hc, hs⟩ | ⟨hne, hmem, hc, hs⟩
        · rw [hc, hs] at hwrite
          rcases writeHandler_delta conn sys ack ev.sendRes conn1 sys1 tx h0 hwrite with
            ⟨hfd, hsys⟩ | ⟨hne, hmem, hfd, hsys⟩
          · left; exact ⟨hfd, by rw [hsys], by rw [hsys], by rw [hsys]⟩
          · right; exact ⟨hne, hmem, hfd, by rw [hsys], by rw [hsys], by rw [hsys]⟩
        · rw [hc, hs] at hwrite
          have h0' : (0 : Nat) ∉ sys.reg.erase conn.socket_fd :=
            fun hz => h0 (List.erase_subset _ _ hz)
          rcases writeHandler_delta _ _ ack ev.sendRes conn1 sys1 tx h0' hwrite with
            ⟨hfd, hsys⟩ | ⟨hne1, hmem1, hfd, hsys⟩
          · right
            refine ⟨hne, hmem, ?_, ?_, ?_, ?_⟩ <;> simp_all
          · simp at hne1
    · rw [if_neg hout] at hw
      simp only [Option.some.injEq, Except.ok.injEq, Prod.mk.injEq] at hw
      obtain ⟨hc2, hs2, _⟩ := hw
      rcases hr with ⟨hc, hs⟩ | ⟨hne, hmem, hc, hs⟩
      · left
        refine ⟨?_, ?_, ?_, ?_⟩
        · rw [← hc2, hc]
        · rw [← hs2, hs]
        · rw [← hs2, hs]
        · rw [← hs2, hs]
      · right
        refine ⟨hne, hmem, ?_, ?_, ?_, ?_⟩
        · rw [← hc2, hc]
        · rw [← hs2, hs]
        · rw [← hs2, hs]
        · rw [← hs2, hs]
  by_cases hin : ev.epollin = true
  · rw [handleEvent, if_pos hin] at h
    cases hread : readHandler conn sys ev.buf0 ev.script with
    | none => rw [hread] at h; simp at h
    | some res =>
      rw [hread] at h
      cases res with
      | error c => simp at h
      | ok t =>
        obtain ⟨conn', sys', ack⟩ := t
        exact main conn' sys' ack
          (readHandler_delta conn sys ev.buf0 ev.script conn' sys' ack h0 hread) h
  · rw [handleEvent, if_neg hin] at h
    exact main conn sys false (Or.inl ⟨rfl, rfl⟩) h

/-- Setting one element changes `countP` by the difference of the
predicate's values at the old and the new element. -/
theorem countP_set_eq (p : Conn → Bool) :
    ∀ (l : List Conn) (i : Nat) (x : Conn) (h : i < l.length),
      (l.set i x).countP p + (if p (l.get ⟨i, h⟩) then 1 else 0)
        = l.countP p + (if p x then 1 else 0) := by
  intro l
  induction l with
  | nil => intro i x h; simp at h
  | cons a as ih =>
    intro i x h
    cases i with
    | zero =>
      cases hpa : p a <;> cases hpx : p x <;>
        simp [List.countP_cons, hpa, hpx] <;> omega
    | succ i =>
      have h' : i < as.length := by simpa using h
      have := ih i x h'
      cases hpa : p a <;>
        simp only [List.set, List.countP_cons, List.get_cons_succ, hpa] <;>
        omega

/-- Dispatching one event preserves the driver invariant. -/
theorem handleEventAt_inv (conns : List Conn) (sys : Sys) (i : Nat) (ev : EventInput)
    (conns1 : List Conn) (sys1 : Sys) (hInv : Inv conns sys)
    (h : handleEventAt conns sys i ev = some (Except.ok (conns1, sys1))) :
    Inv conns1 sys1 := by
  unfold handleEventAt at h
  cases hg : conns[i]? with
  | none =>
    simp only [hg, Option.some.injEq, Except.ok.injEq, Prod.mk.injEq] at h
    obtain ⟨hc, hs⟩ := h
    rw [← hc, ← hs]
    exact hInv
  | some conn =>
    simp only [hg] at h
    cases he : handleEvent conn sys ev with
    | none => simp only [he] at h; exact Option.noConfusion h
    | some res =>
      simp only [he] at h
      cases res with
      | error c => simp at h
      | ok t =>
        obtain ⟨conn1, sys1', tx⟩ := t
        simp only [Option.some.injEq, Except.ok.injEq, Prod.mk.injEq] at h
        obtain ⟨hc, hs⟩ := h
        obtain ⟨hi, hgeti⟩ := List.getElem?_eq_some.mp hg
        obtain ⟨hcnt, h0⟩ := hInv
        have hget : conns.get ⟨i, hi⟩ = conn := by
          simpa [List.get_eq_getElem] using hgeti
        rcases handleEvent_delta conn sys ev conn1 sys1' tx h0 he with
          ⟨hfd, hcnt1, hcl, hreg⟩ | ⟨hne, hmem, hfd, hcnt1, hcl, hreg⟩
        · constructor
          · rw [← hs, hcnt1, hcnt, ← hc]
            have hcp := countP_set_eq (fun c => c.socket_fd != 0) conns i conn1 hi
            rw [hget] at hcp
            have hpeq : (conn1.socket_fd != 0) = (conn.socket_fd != 0) := by rw [hfd]
            rw [hpeq] at hcp
            have : (conns.set i conn1).countP (fun c => c.socket_fd != 0)
                = conns.countP (fun c => c.socket_fd != 0) := by omega
            simp only [openCount, this]
          · rw [← hs, hreg]; exact h0
        · constructor
          · rw [← hs, hcnt1, hcnt, ← hc]
            have hcp := countP_set_eq (fun c => c.socket_fd != 0) conns i conn1 hi
            rw [hget] at hcp
            have e1 : ((conn.socket_fd != 0) = true) := by simpa using hne
            have e0 : ¬ ((conn1.socket_fd != 0) = true) := by simp [hfd]
            rw [if_pos e1, if_neg e0] at hcp
            simp only [openCount]
            omega
          · rw [← hs, hreg]
            exact fun hz => h0 (List.erase_subset _ _ hz)

/-- Processing a whole batch preserves the driver invariant. -/
theorem handleBatch_inv :
    ∀ (b : List (Nat × EventInput)) (conns : List Conn) (sys : Sys)
      (conns1 : List Conn) (sys1 : Sys), Inv conns sys →
      handleBatch conns sys b = some (Except.ok (conns1, sys1)) → Inv conns1 sys1 := by
  intro b
  induction b with
  | nil =>
    intro conns sys conns1 sys1 hInv h
    simp only [handleBatch, Option.some.injEq, Except.ok.injEq, Prod.mk.injEq] at h
    obtain ⟨hc, hs⟩ := h
    rw [← hc, ← hs]
    exact hInv
  | cons p rest ih =>
    intro conns sys conns1 sys1 hInv h
    obtain ⟨i, ev⟩ := p
    unfold handleBatch at h
    cases ha : handleEventAt conns sys i ev with
    | none => simp only [ha] at h; exact Option.noConfusion h
    | some res =>
      simp only [ha] at h
      cases res with
      | error c => simp at h
      | ok t =>
        obtain ⟨conns2, sys2⟩ := t
        exact ih conns2 sys2 conns1 sys1
          (handleEventAt_inv conns sys i ev conns2 sys2 hInv ha) h

/-- A normal exit of the event loop preserves the invariant and happens
exactly at `conn_cnt = 0`, i.e. when no record is still open. -/
theorem eventLoop_inv :
    ∀ (batches : List (List (Nat × EventInput))) (conns : List Conn) (sys : Sys)
      (conns1 : List Conn) (sys1 : Sys), Inv conns sys →
      eventLoop conns sys batches = some (Except.ok (conns1, sys1)) →
      Inv conns1 sys1 ∧ openCount conns1 = 0 ∧ sys1.cnt = 0 := by
  intro batches
  induction batches with
  | nil =>
    intro conns sys conns1 sys1 hInv h
    unfold eventLoop at h
    split at h
    · rename_i hle
      simp only [Option.some.injEq, Except.ok.injEq, Prod.mk.injEq] at h
      obtain ⟨hc, hs⟩ := h
      have hcnt0 : sys.cnt = 0 := by
        obtain ⟨hcnt, _⟩ := hInv
        omega
      have hopen0 : openCount conns = 0 := by
        obtain ⟨hcnt, _⟩ := hInv
        omega
      rw [← hc, ← hs]
      exact ⟨hInv, hopen0, hcnt0⟩
    · simp at h
  | cons b rest ih =>
    intro conns sys conns1 sys1 hInv h
    unfold eventLoop at h
    split at h
    · rename_i hle
      simp only [Option.some.injEq, Except.ok.injEq, Prod.mk.injEq] at h
      obtain ⟨hc, hs⟩ := h
      have hcnt0 : sys.cnt = 0 := by
        obtain ⟨hcnt, _⟩ := hInv
        omega
      have hopen0 : openCount conns = 0 := by
        obtain ⟨hcnt, _⟩ := hInv
        omega
      rw [← hc, ← hs]
      exact ⟨hInv, hopen0, hcnt0⟩
    · cases hb : handleBatch conns sys b with
      | none => simp only [hb] at h; exact Option.noConfusion h
      | some res =>
        simp only [hb] at h
        cases res with
        | error c => simp at h
        | ok t =>
          obtain ⟨conns2, sys2⟩ := t
          exact ih conns2 sys2 conns1 sys1
            (handleBatch_inv b conns sys conns2 sys2 hInv hb) h

/-- One event also preserves the close-log bookkeeping: no descriptor is
ever closed twice, and registrations stay unique. -/
theorem handleEvent_sysok (conn : Conn) (sys : Sys) (ev : EventInput)
    (conn1 : Conn) (sys1 : Sys) (tx : List Nat) (h0 : 0 ∉ sys.reg)
    (hok : SysOk sys)
    (h : handleEvent conn sys ev = some (Except.ok (conn1, sys1, tx))) :
    SysOk sys1 := by
  obtain ⟨hnc, hnr, hdisj⟩ := hok
  rcases handleEvent_delta conn sys ev conn1 sys1 tx h0 h with
    ⟨_, _, hcl, hreg⟩ | ⟨hne, hmem, _, _, hcl, hreg⟩
  · exact ⟨hcl ▸ hnc, hreg ▸ hnr, by rw [hcl, hreg]; exact hdisj⟩
  · have hfdnc : conn.socket_fd ∉ sys.closed := fun hin => hdisj _ hin hmem
    refine ⟨?_, ?_, ?_⟩
    · rw [hcl]
      exact List.nodup_append.mpr
        ⟨hnc, List.nodup_singleton _, by
          intro x hx hx1
          rw [List.mem_singleton] at hx1
          exact hfdnc (hx1 ▸ hx)⟩
    · rw [hreg]
      exact hnr.erase _
    · rw [hcl, hreg]
      intro f hf
      rcases List.mem_append.mp hf with hf1 | hf2
      · exact fun hfe => hdisj f hf1 (List.erase_subset _ _ hfe)
      · rw [List.mem_singleton] at hf2
        subst hf2
        exact hnr.not_mem_erase

/-- Dispatching one event preserves the close-log bookkeeping. -/
theorem handleEventAt_sysok (conns : List Conn) (sys : Sys) (i : Nat) (ev : EventInput)
    (conns1 : List Conn) (sys1 : Sys) (h0 : 0 ∉ sys.reg) (hok : SysOk sys)
    (h : handleEventAt conns sys i ev = some (Except.ok (conns1, sys1))) :
    SysOk sys1 := by
  unfold handleEventAt at h
  cases hg : conns[i]? with
  | none =>
    simp only [hg, Option.some.injEq, Except.ok.injEq, Prod.mk.injEq] at h
    exact h.2 ▸ hok
  | some conn =>
    simp only [hg] at h
    cases he : handleEvent conn sys ev with
    | none => simp only [he] at h; exact Option.noConfusion h
    | some res =>
      simp only [he] at h
      cases res with
      | error c => simp at h
      | ok t =>
        obtain ⟨conn1, sys1', tx⟩ := t
        simp only [Option.some.injEq, Except.ok.injEq, Prod.mk.injEq] at h
        exact h.2 ▸ handleEvent_sysok conn sys ev conn1 sys1' tx h0 hok he

/-- Processing a batch preserves both the invariant and the bookkeeping. -/
theorem handleBatch_sysok :
    ∀ (b : List (Nat × EventInput)) (conns : List Conn) (sys : Sys)
      (conns1 : List Conn) (sys1 : Sys), Inv conns sys → SysOk sys →
      handleBatch conns sys b = some (Except.ok (conns1, sys1)) → SysOk sys1 := by
  intro b
  induction b with
  | nil =>
    intro conns sys conns1 sys1 _ hok h
    simp only [handleBatch, Option.some.injEq, Except.ok.injEq, Prod.mk.injEq] at h
    exact h.2 ▸ hok
  | cons p rest ih =>
    intro conns sys conns1 sys1 hInv hok h
    obtain ⟨i, ev⟩ := p
    unfold handleBatch at h
    cases ha : handleEventAt conns sys i ev with
    | none => simp only [ha] at h; exact Option.noConfusion h
    | some res =>
      simp only [ha] at h
      cases res with
      | error c => simp at h
      | ok t =>
        obtain ⟨conns2, sys2⟩ := t
        exact ih conns2 sys2 conns1 sys1
          (handleEventAt_inv conns sys i ev conns2 sys2 hInv ha)
          (handleEventAt_sysok conns sys i ev conns2 sys2 hInv.2 hok ha) h

/-- A normal event-loop exit preserves the close-log bookkeeping. -/
theorem eventLoop_sysok :
    ∀ (batches : List (List (Nat × EventInput))) (conns : List Conn) (sys : Sys)
      (conns1 : List Conn) (sys1 : Sys), Inv conns sys → SysOk sys →
      eventLoop conns sys batches = some (Except.ok (conns1, sys1)) → SysOk sys1 := by
  intro batches
  induction batches with
  | nil =>
    intro conns sys conns1 sys1 _ hok h
    unfold eventLoop at h
    split at h
    · simp only [Option.some.injEq, Except.ok.injEq, Prod.mk.injEq] at h
      exact h.2 ▸ hok
    · simp at h
  | cons b rest ih =>
    intro conns sys conns1 sys1 hInv hok h
    unfold eventLoop at h
    split at h
    · simp only [Option.some.injEq, Except.ok.injEq, Prod.mk.injEq] at h
      exact h.2 ▸ hok
    · cases hb : handleBatch conns sys b with
      | none => simp only [hb] at h; exact Option.noConfusion h
      | some res =>
        simp only [hb] at h
        cases res with
        | error c => simp at h
        | ok t =>
          obtain ⟨conns2, sys2⟩ := t
          exact ih conns2 sys2 conns1 sys1
            (handleBatch_inv b conns sys conns2 sys2 hInv hb)
            (handleBatch_sysok b conns sys conns2 sys2 hInv hok hb) h

/-- In the registration loop, every step that bumps `conn_cnt` with a
healthy allocator also appends exactly one record. -/
theorem setup_aux :
    ∀ (ps : List ((Option (Nat × List Nat)) × Bool)) (acc : List Conn × Int),
      (∀ p ∈ ps, p.2 = true) →
      ((ps.foldl (fun acc p => setupStep acc p.1 p.2) acc).1.length : Int) - acc.1.length
        = (ps.foldl (fun acc p => setupStep acc p.1 p.2) acc).2 - acc.2 := by
  intro ps
  induction ps with
  | nil => intro acc _; simp
  | cons p rest ih =>
    intro acc hall
    obtain ⟨arg, alloc⟩ := p
    have halloc : alloc = true := hall (arg, alloc) (List.mem_cons_self _ _)
    subst halloc
    have hrest : ∀ q ∈ rest, q.2 = true := fun q hq => hall q (List.mem_cons_of_mem _ hq)
    cases arg with
    | none =>
      simpa [setupStep] using ih acc hrest
    | some fdc =>
      obtain ⟨fd, content⟩ := fdc
      have hss : setupStep acc (some (fd, content)) true
          = (acc.1 ++ [Conn.mk fd (some content) (List.replicate BUFLEN 0)], acc.2 + 1) := by
        simp [setupStep]
      have hstep := ih (setupStep acc (some (fd, content)) true) hrest
      simp only [List.foldl_cons]
      rw [hss] at hstep
      rw [hss]
      simp only [List.length_append, List.length_cons, List.length_nil] at hstep
      push_cast at hstep ⊢
      omega

/-- Claim C5: on every readable notification the handler keeps calling
`recv` until a would-block or terminal result; every byte delivered
before that result is accumulated (none is left unread), the local
buffer holds the successive chunks, and the loop stops exactly at the
first non-positive result. -/
theorem drain_reads_everything :
    ∀ (chunks : List (List Nat)) (t : RecvRes) (rest : List RecvRes)
      (buf : List Nat) (total : Nat),
      (∀ c ∈ chunks, c ≠ []) → isData t = false →
      drainLoop (chunks.map RecvRes.bytes ++ t :: rest) buf total
        = some (total + (chunks.map List.length).sum,
                chunks.foldl (fun b c => c ++ b.drop c.length) buf,
                termOf t) := by
  intro chunks
  induction chunks with
  | nil =>
    intro t rest buf total _ hterm
    cases t with
    | bytes chunk =>
      have hlen : chunk.length = 0 := by
        simpa [isData] using hterm
      simp [drainLoop, hlen, termOf]
    | eagain => simp [drainLoop, termOf]
    | reset => simp [drainLoop, termOf]
    | errOther => simp [drainLoop, termOf]
  | cons c cs ih =>
    intro t rest buf total hne hterm
    have hc : c ≠ [] := hne c (List.mem_cons_self _ _)
    have hlen : ¬ c.length = 0 := by simpa using hc
    have hcs : ∀ x ∈ cs, x ≠ [] := fun x hx => hne x (List.mem_cons_of_mem _ hx)
    have := ih t rest (c ++ buf.drop c.length) (total + c.length) hcs hterm
    simp only [List.map_cons, List.cons_append, drainLoop, hlen, if_false,
      List.foldl_cons, List.sum_cons, List.append_eq]
    rw [this, Nat.add_assoc]

/-- Claim C6: a `recv` returning 0 (orderly shutdown) with zero bytes
accumulated in the drain cycle closes the connection at once, in any
non-terminal state (any `fp`): the switch on the result unconditionally
removes the channel from epoll, closes it, and decrements `conn_cnt`;
and the whole EPOLLIN handler returns exactly that closed state whenever
the (uninitialized) local buffer does not happen to spell the token. -/
theorem orderly_shutdown_closes :
    (∀ (conn : Conn) (sys : Sys),
      conn.socket_fd ∈ sys.reg →
      recvSwitch conn sys 0 RecvTerm.orderly
        = Except.ok ({ conn with socket_fd := 0 },
            Sys.mk (sys.reg.erase conn.socket_fd) (sys.closed ++ [conn.socket_fd])
              (sys.cnt - 1))) ∧
    (∀ (conn : Conn) (sys : Sys) (buf0 bufF : List Nat) (script : List RecvRes),
      conn.socket_fd ≠ 0 → conn.socket_fd ∈ sys.reg →
      drainLoop script buf0 0 = some (0, bufF, RecvTerm.orderly) →
      ¬ (bufF.take 4 = ackToken) →
      readHandler conn sys buf0 script
        = some (Except.ok ({ conn with socket_fd := 0 },
            Sys.mk (sys.reg.erase conn.socket_fd) (sys.closed ++ [conn.socket_fd])
              (sys.cnt - 1),
            false))) := by
  have hclose : ∀ (conn : Conn) (sys : Sys), conn.socket_fd ∈ sys.reg →
      recvSwitch conn sys 0 RecvTerm.orderly
        = Except.ok ({ conn with socket_fd := 0 },
            Sys.mk (sys.reg.erase conn.socket_fd) (sys.closed ++ [conn.socket_fd])
              (sys.cnt - 1)) := by
    intro conn sys hmem
    unfold recvSwitch close_connection
    rw [if_pos rfl, if_pos hmem]
  refine ⟨hclose, ?_⟩
  intro conn sys buf0 bufF script hfd hmem hdrain hack
  have hsw := hclose conn sys hmem
  unfold readHandler
  simp only [hdrain, hsw]
  unfold ackCheck
  rw [if_neg hack]

/-- Witness for C6 at a concrete input: scenario B of the specification,
the peer closes immediately and nothing was ever received. -/
theorem orderly_shutdown_closes_witness :
    recvSwitch (Conn.mk 5 (some [1]) (zeros 64)) (Sys.mk [5] [] 1) 0 RecvTerm.orderly
      = Except.ok (Conn.mk 0 (some [1]) (zeros 64), Sys.mk [] [5] 0) ∧
    readHandler (Conn.mk 5 (some [1]) (zeros 64)) (Sys.mk [5] [] 1) (zeros 64)
      [RecvRes.bytes []]
      = some (Except.ok (Conn.mk 0 (some [1]) (zeros 64), Sys.mk [] [5] 0, false)) := by
  have h := orderly_shutdown_closes
  constructor
  · have h1 := h.1 (Conn.mk 5 (some [1]) (zeros 64)) (Sys.mk [5] [] 1) (by decide)
    exact h1.trans rfl
  · have h2 := h.2 (Conn.mk 5 (some [1]) (zeros 64)) (Sys.mk [5] [] 1)
      (zeros 64) (zeros 64) [RecvRes.bytes []]
      (by decide) (by decide) (by decide) (by decide)
    exact h2.trans rfl

/-- Witness for C5 at a concrete input: two chunks then EAGAIN. -/
theorem drain_reads_everything_witness :
    drainLoop [RecvRes.bytes [1], RecvRes.bytes [2, 3], RecvRes.eagain] [0, 0, 0, 0] 0
      = some (3, [2, 3, 0, 0], RecvTerm.eagain) := by
  have h := drain_reads_everything [[1], [2, 3]] RecvRes.eagain [] [0, 0, 0, 0] 0
    (by decide) (by decide)
  simpa using h

/-- Claim C7: `conn_cnt` is initialized to the number of opened
connections (one per record when every allocation succeeds), the loop
guard `0 < conn_cnt` fails exactly when no record is still open, and a
normal loop exit means every record has reached the closed state with
the counter at zero, the counter having been decremented exactly once
per terminal transition (the preserved invariant `Inv`). -/
theorem active_count_governs_loop :
    (∀ (args : List (Option (Nat × List Nat))) (allocs : List Bool),
       (∀ b ∈ allocs, b = true) →
       ((setupLoop args allocs).1.length : Int) = (setupLoop args allocs).2) ∧
    (∀ (conns : List Conn) (sys : Sys), Inv conns sys →
       ((sys.cnt ≤ 0 ↔ openCount conns = 0) ∧
        (∀ (batches : List (List (Nat × EventInput))) (conns1 : List Conn) (sys1 : Sys),
          eventLoop conns sys batches = some (Except.ok (conns1, sys1)) →
          openCount conns1 = 0 ∧ sys1.cnt = 0 ∧ Inv conns1 sys1))) := by
  constructor
  · intro args allocs hall
    have h := setup_aux (args.zip allocs) ([], 0)
      (fun p hp => hall p.2 (List.of_mem_zip hp).2)
    unfold setupLoop
    simp only [List.length_nil] at h
    omega
  · intro conns sys hInv
    constructor
    · obtain ⟨hcnt, _⟩ := hInv
      omega
    · intro batches conns1 sys1 h
      obtain ⟨hi, ho, hc⟩ := eventLoop_inv batches conns sys conns1 sys1 hInv h
      exact ⟨ho, hc, hi⟩

/-- Witness for C7 at a concrete input: one record, one file; the loop
processes one orderly-shutdown event and exits with the count at zero. -/
theorem active_count_governs_loop_witness :
    ((setupLoop [some (3, [1])] [true]).1.length : Int) = (setupLoop [some (3, [1])] [true]).2
    ∧ (openCount [Conn.mk 0 (some [1]) (zeros 64)] = 0 ∧ (Sys.mk [] [5] 0).cnt = 0 ∧
       Inv [Conn.mk 0 (some [1]) (zeros 64)] (Sys.mk [] [5] 0)) := by
  have h := active_count_governs_loop
  refine ⟨h.1 [some (3, [1])] [true] (by decide), ?_⟩
  have h2 := (h.2 [Conn.mk 5 (some [1]) (zeros 64)] (Sys.mk [5] [] 1)
    ⟨by decide, by decide⟩).2
    [[(0, EventInput.mk true false (zeros 64) [RecvRes.bytes []] (SendRes.ok 0))]]
    [Conn.mk 0 (some [1]) (zeros 64)] (Sys.mk [] [5] 0) (by rfl)
  exact h2

/-- Claim C8: a channel is released exactly once, on its record's
terminal transition: one event appends the descriptor to the close log
exactly when it closes the record (and never otherwise), and after a
normal loop exit the final full shutdown walk closes nothing further,
the close log holding no descriptor twice. -/
theorem channel_released_exactly_once :
    (∀ (conn : Conn) (sys : Sys) (ev : EventInput) (conn1 : Conn) (sys1 : Sys)
       (tx : List Nat),
       0 ∉ sys.reg →
       handleEvent conn sys ev = some (Except.ok (conn1, sys1, tx)) →
       ((conn.socket_fd ≠ 0 ∧ conn1.socket_fd = 0 ∧
         sys1.closed = sys.closed ++ [conn.socket_fd]) ∨
        (conn1.socket_fd = conn.socket_fd ∧ sys1.closed = sys.closed))) ∧
    (∀ (batches : List (List (Nat × EventInput))) (conns : List Conn) (sys : Sys)
       (conns1 : List Conn) (sys1 : Sys),
       Inv conns sys → SysOk sys →
       eventLoop conns sys batches = some (Except.ok (conns1, sys1)) →
       clear_connection_ctx_list conns1 sys1.closed = sys1.closed ∧
       sys1.closed.Nodup) := by
  constructor
  · intro conn sys ev conn1 sys1 tx h0 h
    rcases handleEvent_delta conn sys ev conn1 sys1 tx h0 h with
      ⟨hfd, _, hcl, _⟩ | ⟨hne, _, hfd, _, hcl, _⟩
    · exact Or.inr ⟨hfd, hcl⟩
    · exact Or.inl ⟨hne, hfd, hcl⟩
  · intro batches conns sys conns1 sys1 hInv hok h
    have hopen : openCount conns1 = 0 :=
      (eventLoop_inv batches conns sys conns1 sys1 hInv h).2.1
    have hok1 : SysOk sys1 := eventLoop_sysok batches conns sys conns1 sys1 hInv hok h
    constructor
    · unfold clear_connection_ctx_list
      have hfil : conns1.filter (fun c => c.socket_fd != 0) = [] := by
        rw [List.filter_eq_nil_iff]
        intro a ha
        have := List.countP_eq_zero.mp hopen a ha
        simpa using this
      rw [hfil]
      simp
    · exact hok1.1

/-- Witness for C8 at a concrete input: the same one-connection run as
the C7 witness; the close log ends as exactly one entry and the final
shutdown walk adds nothing. -/
theorem channel_released_exactly_once_witness :
    (((Conn.mk 5 (some [1]) (zeros 64)).socket_fd ≠ 0 ∧
      (Conn.mk 0 (some [1]) (zeros 64)).socket_fd = 0 ∧
      (Sys.mk [] [5] 0).closed = (Sys.mk [5] [] 1).closed ++
        [(Conn.mk 5 (some [1]) (zeros 64)).socket_fd]) ∨
     ((Conn.mk 0 (some [1]) (zeros 64)).socket_fd = (Conn.mk 5 (some [1]) (zeros 64)).socket_fd ∧
      (Sys.mk [] [5] 0).closed = (Sys.mk [5] [] 1).closed)) ∧
    (clear_connection_ctx_list [Conn.mk 0 (some [1]) (zeros 64)] [5] = [5] ∧
     ([5] : List Nat).Nodup) := by
  have h := channel_released_exactly_once
  constructor
  · exact h.1 (Conn.mk 5 (some [1]) (zeros 64)) (Sys.mk [5] [] 1)
      (EventInput.mk true false (zeros 64) [RecvRes.bytes []] (SendRes.ok 0))
      (Conn.mk 0 (some [1]) (zeros 64)) (Sys.mk [] [5] 0) [] (by decide) (by rfl)
  · have h2 := h.2
      [[(0, EventInput.mk true false (zeros 64) [RecvRes.bytes []] (SendRes.ok 0))]]
      [Conn.mk 5 (some [1]) (zeros 64)] (Sys.mk [5] [] 1)
      [Conn.mk 0 (some [1]) (zeros 64)] (Sys.mk [] [5] 0)
      ⟨by decide, by decide⟩ ⟨by decide, by decide, by decide⟩ (by rfl)
    exact h2

/-- EPOLLOUT outcome when the stream still holds at least BUFLEN bytes:
a full chunk is read and sent, the stream advances, the file survives. -/
theorem writeHandler_full_read (fd : Nat) (src buf : List Nat) (sys : Sys)
    (ack : Bool) (sent : Nat) (hfd : fd ≠ 0) (hlen : BUFLEN ≤ src.length) :
    writeHandler (Conn.mk fd (some src) buf) sys ack (SendRes.ok sent)
      = Except.ok (Conn.mk fd (some (src.drop BUFLEN)) (src.take BUFLEN ++ buf.drop BUFLEN),
          sys, (src.take BUFLEN).take sent) := by
  have hB : BUFLEN = 64 := rfl
  have hntake : (src.take BUFLEN).length = BUFLEN := by
    rw [List.length_take]; omega
  simp only [writeHandler, hfd, hntake, ne_eq, not_false_eq_true, if_true]
  rw [if_pos (by decide : ¬ BUFLEN = 0), if_neg (by decide : ¬ BUFLEN < BUFLEN)]

/-- EPOLLOUT outcome on a zero-byte read without a pending ack: the file
is closed and discarded, nothing else changes. -/
theorem writeHandler_zero_read (fd : Nat) (buf : List Nat) (sys : Sys) (r : SendRes)
    (hfd : fd ≠ 0) :
    writeHandler (Conn.mk fd (some []) buf) sys false r
      = Except.ok (Conn.mk fd none buf, sys, []) := by
  simp [writeHandler, hfd]

/-- EPOLLOUT outcome on a zero-byte read with the ack flag set in the
same event: the file is closed and the connection transitions to CLOSED. -/
theorem writeHandler_zero_read_ack (fd : Nat) (buf : List Nat) (sys : Sys) (r : SendRes)
    (hfd : fd ≠ 0) (hmem : fd ∈ sys.reg) :
    writeHandler (Conn.mk fd (some []) buf) sys true r
      = Except.ok (Conn.mk 0 none buf,
          Sys.mk (sys.reg.erase fd) (sys.closed ++ [fd]) (sys.cnt - 1), []) := by
  simp [writeHandler, hfd, close_connection, hmem]

/-- EPOLLOUT outcome on a positive read shorter than BUFLEN: the chunk
is sent and the file is closed in the same cycle (client.c:429). -/
theorem writeHandler_short_read (fd : Nat) (src buf : List Nat) (sys : Sys)
    (ack : Bool) (sent : Nat) (hfd : fd ≠ 0) (hpos : 0 < src.length)
    (hlt : src.length < BUFLEN) :
    writeHandler (Conn.mk fd (some src) buf) sys ack (SendRes.ok sent)
      = Except.ok (Conn.mk fd none (src ++ buf.drop src.length), sys, src.take sent) := by
  have htake : src.take BUFLEN = src := List.take_of_length_le (Nat.le_of_lt hlt)
  have hnb : ¬ src.length = 0 := by omega
  simp only [writeHandler, htake, hfd, hnb, hlt, ne_eq, not_false_eq_true,
    if_true, ite_true]

/-- One event carrying only the EPOLLOUT bit reduces to the write
handler's outcome. -/
theorem handleEvent_write_only (conn : Conn) (sys : Sys) (b0 : List Nat) (r : SendRes)
    (conn1 : Conn) (sys1 : Sys) (tx : List Nat)
    (hw : writeHandler conn sys false r = Except.ok (conn1, sys1, tx)) :
    handleEvent conn sys (EventInput.mk false true b0 [] r)
      = some (Except.ok (conn1, sys1, tx)) := by
  unfold handleEvent
  simp only [hw, Bool.false_eq_true, if_false, if_true]

/-- Claim C4 (amended): for a source of exactly BUFLEN bytes the first
write-ready cycle reads a full buffer — never itself treated as
exhaustion (the file handle survives) — and the strictly-zero-byte read
of the immediately following cycle detects exhaustion; in general a
full-capacity read always keeps the file open, a zero-byte read closes
it, and (amending the claim's last clause) so does any positive read of
fewer than BUFLEN bytes, in the same cycle. -/
theorem exhaustion_detection_amended :
    (∀ (fd : Nat) (src buf b0 : List Nat) (sys : Sys) (s1 : Nat) (r2 : SendRes),
       fd ≠ 0 → src.length = BUFLEN →
       runEvents (Conn.mk fd (some src) buf) sys []
         [EventInput.mk false true b0 [] (SendRes.ok s1),
          EventInput.mk false true b0 [] r2]
         = some (Except.ok (Conn.mk fd none (src ++ buf.drop BUFLEN), sys,
             src.take s1))) ∧
    (∀ (fd : Nat) (src buf : List Nat) (sys : Sys) (ack : Bool) (sent : Nat),
       fd ≠ 0 → BUFLEN ≤ src.length →
       writeHandler (Conn.mk fd (some src) buf) sys ack (SendRes.ok sent)
         = Except.ok (Conn.mk fd (some (src.drop BUFLEN))
             (src.take BUFLEN ++ buf.drop BUFLEN), sys, (src.take BUFLEN).take sent)) ∧
    (∀ (fd : Nat) (buf : List Nat) (sys : Sys) (r : SendRes),
       fd ≠ 0 →
       writeHandler (Conn.mk fd (some []) buf) sys false r
         = Except.ok (Conn.mk fd none buf, sys, [])) ∧
    (∀ (fd : Nat) (src buf : List Nat) (sys : Sys) (ack : Bool) (sent : Nat),
       fd ≠ 0 → 0 < src.length → src.length < BUFLEN →
       writeHandler (Conn.mk fd (some src) buf) sys ack (SendRes.ok sent)
         = Except.ok (Conn.mk fd none (src ++ buf.drop src.length), sys,
             src.take sent)) := by
  refine ⟨?_, writeHandler_full_read, writeHandler_zero_read, writeHandler_short_read⟩
  intro fd src buf b0 sys s1 r2 hfd hlen
  have htake : src.take BUFLEN = src := List.take_of_length_le (Nat.le_of_eq hlen)
  have hdrop : src.drop BUFLEN = [] := List.drop_eq_nil_of_le (Nat.le_of_eq hlen)
  have h1 := writeHandler_full_read fd src buf sys false s1 hfd (Nat.le_of_eq hlen.symm)
  rw [htake, hdrop] at h1
  have h2 := writeHandler_zero_read fd (src ++ buf.drop BUFLEN) sys r2 hfd
  unfold runEvents
  simp only [handleEvent_write_only _ _ _ _ _ _ _ h1]
  unfold runEvents
  simp only [handleEvent_write_only _ _ _ _ _ _ _ h2]
  unfold runEvents
  simp

/-- Witness for the amended C4 at concrete inputs: a 64-byte source is
exhausted on the second cycle; a 64-byte read keeps the file; a zero
read and a 3-byte read both close it. -/
theorem exhaustion_detection_amended_witness :
    runEvents (Conn.mk 5 (some (zeros 64)) (zeros 64)) (Sys.mk [5] [] 1) []
      [EventInput.mk false true (zeros 64) [] (SendRes.ok 64),
       EventInput.mk false true (zeros 64) [] (SendRes.ok 0)]
      = some (Except.ok (Conn.mk 5 none (zeros 64 ++ (zeros 64).drop BUFLEN),
          Sys.mk [5] [] 1, (zeros 64).take 64)) ∧
    writeHandler (Conn.mk 5 (some (zeros 64)) (zeros 64)) (Sys.mk [5] [] 1) false
      (SendRes.ok 64)
      = Except.ok (Conn.mk 5 (some ((zeros 64).drop BUFLEN))
          ((zeros 64).take BUFLEN ++ (zeros 64).drop BUFLEN), Sys.mk [5] [] 1,
          ((zeros 64).take BUFLEN).take 64) ∧
    writeHandler (Conn.mk 5 (some []) (zeros 64)) (Sys.mk [5] [] 1) false (SendRes.ok 0)
      = Except.ok (Conn.mk 5 none (zeros 64), Sys.mk [5] [] 1, []) ∧
    writeHandler (Conn.mk 5 (some [9, 9, 9]) (zeros 64)) (Sys.mk [5] [] 1) true
      (SendRes.ok 3)
      = Except.ok (Conn.mk 5 none ([9, 9, 9] ++ (zeros 64).drop 3), Sys.mk [5] [] 1,
          [9, 9, 9].take 3) := by
  have h := exhaustion_detection_amended
  exact ⟨h.1 5 (zeros 64) (zeros 64) (zeros 64) (Sys.mk [5] [] 1) 64 (SendRes.ok 0)
      (by decide) (by decide),
    h.2.1 5 (zeros 64) (zeros 64) (Sys.mk [5] [] 1) false 64 (by decide) (by decide),
    h.2.2.1 5 (zeros 64) (Sys.mk [5] [] 1) (SendRes.ok 0) (by decide),
    h.2.2.2 5 [9, 9, 9] (zeros 64) (Sys.mk [5] [] 1) true 3 (by decide) (by decide)
      (by decide)⟩

/-- Claim C10: once a record's channel was closed (socket_fd = 0), the
EPOLLOUT block is a no-op for it: the guard `fp != NULL && socket_fd != 0`
blocks the branch, so there is no fread, no send, no state change. -/
theorem writeHandler_closed_noop :
    ∀ (conn : Conn) (sys : Sys) (ack : Bool) (r : SendRes),
      conn.socket_fd = 0 →
      writeHandler conn sys ack r = Except.ok (conn, sys, []) := by
  intro conn sys ack r hfd
  rcases hfp : conn.fp with _ | src
  · simp only [writeHandler, hfp]
  · simp only [writeHandler, hfp, hfd, ne_eq, not_true_eq_false, if_false]

/-- Witness for C10 at a concrete input. -/
theorem writeHandler_closed_noop_witness :
    writeHandler (Conn.mk 0 (some [1, 2]) (zeros 64)) (Sys.mk [] [5] 0) true
      (SendRes.ok 3)
      = Except.ok (Conn.mk 0 (some [1, 2]) (zeros 64), Sys.mk [] [5] 0, []) :=
  writeHandler_closed_noop (Conn.mk 0 (some [1, 2]) (zeros 64)) (Sys.mk [] [5] 0) true
    (SendRes.ok 3) rfl

/-- Claim C3 fails on the code (code bug): a send failing with
EWOULDBLOCK falls through the errno switch (client.c:404 reaches the
default) and `exit(1)` kills the whole process — the bytes are not
retained and no retry happens; likewise every other send errno also
exits the process instead of closing only that connection. -/
theorem send_failure_exits_process :
    handleEvent (Conn.mk 5 (some [1, 2, 3]) (zeros 64)) (Sys.mk [5] [] 1)
      (EventInput.mk false true (zeros 64) [] SendRes.errWouldBlock)
      = some (Except.error 1)
    ∧ handleEvent (Conn.mk 5 (some [1, 2, 3]) (zeros 64)) (Sys.mk [5] [] 1)
      (EventInput.mk false true (zeros 64) [] SendRes.errOther)
      = some (Except.error 1) :=
  ⟨rfl, rfl⟩

/-- Claim C2 fails on the code (code bug): with a 70-byte source, a
first send that accepts only 10 of the 64 bytes read drops the other 54
for good — the next write-ready cycle freads fresh bytes, so byte 10 of
the source never reaches the outbound stream. -/
theorem short_send_drops_bytes :
    runEvents (Conn.mk 7 (some (List.range 70)) (zeros 64)) (Sys.mk [7] [] 1) []
      [EventInput.mk false true (zeros 64) [] (SendRes.ok 10),
       EventInput.mk false true (zeros 64) [] (SendRes.ok 6)]
      = some (Except.ok
          (Conn.mk 7 none ([64, 65, 66, 67, 68, 69] ++ (List.range 64).drop 6),
           Sys.mk [7] [] 1,
           List.range 10 ++ [64, 65, 66, 67, 68, 69]))
    ∧ (10 : Nat) ∈ List.range 70
    ∧ (10 : Nat) ∉ List.range 10 ++ [64, 65, 66, 67, 68, 69] :=
  ⟨rfl, by decide, by decide⟩

/-- Claim C9 fails on the code (code bug): when malloc returns NULL for
an opened file the loop silently creates no record yet still executes
`++conn_cnt` (client.c:235 sits outside the `NULL != new_conn` check);
nothing is reported and the process does not exit, so the active count
exceeds the number of records actually created. -/
theorem malloc_failure_still_counted :
    setupLoop [some (3, [1, 2])] [false] = ([], 1)
    ∧ setupLoop [some (3, [1]), some (4, [2])] [false, true]
      = ([Conn.mk 4 (some [2]) (zeros 64)], 2) :=
  ⟨rfl, rfl⟩

/-- Claim C4 fails as stated: its final clause says only a strictly
zero-byte read is treated as exhaustion, but a 3-byte read (fewer than
BUFLEN = 64) already closes the file in the same write-ready cycle
(`nbytes < BUFLEN` at client.c:429), leaving `fp` absent. -/
theorem short_positive_read_treated_as_exhaustion :
    writeHandler (Conn.mk 5 (some [9, 9, 9]) (zeros 64)) (Sys.mk [5] [] 1) false
      (SendRes.ok 3)
      = Except.ok (Conn.mk 5 none ([9, 9, 9] ++ zeros 61), Sys.mk [5] [] 1, [9, 9, 9]) :=
  rfl

/-- Claim C1 fails as stated: the acknowledgment flag is a per-event
local (client.c:314).  Here the token arrives while the source still
holds 3 bytes (STREAMING): the connection rightly stays open, but when
the same event's write handler exhausts the source via the short read,
and in every later event, no close happens — the connection never
reaches CLOSED although the token was observed and the source is
exhausted, so "closing once the source is also exhausted" is false. -/
theorem ack_while_streaming_is_forgotten :
    runEvents (Conn.mk 5 (some [1, 2, 3]) (zeros 64)) (Sys.mk [5] [] 1) []
      [EventInput.mk true true (zeros 64) [RecvRes.bytes ackToken, RecvRes.eagain]
         (SendRes.ok 3),
       EventInput.mk true true (zeros 64) [RecvRes.eagain] (SendRes.ok 0)]
      = some (Except.ok
          (Conn.mk 5 none ([1, 2, 3] ++ zeros 61), Sys.mk [5] [] 1, [1, 2, 3]))
    ∧ (Conn.mk 5 none ([1, 2, 3] ++ zeros 61)).socket_fd ≠ 0 :=
  ⟨rfl, by decide⟩

/-- Claim C1 (amended): closing needs both the token and exhaustion, but
the acknowledgment is remembered only within a single event.  (1) If the
source is already exhausted (`fp` absent) when the token is drained, the
connection closes: deregistered, closed, `conn_cnt` decremented.  (2) If
the token is drained while the source is still present (STREAMING), the
connection stays open and only the per-event flag is set.  (3) The
deferred close happens when, in the same event, the write handler's
read returns zero bytes; an acknowledgment noted in an earlier event is
forgotten (see the counterexample for the claim as stated). -/
theorem ack_and_exhaustion_amended :
    (∀ (conn : Conn) (sys : Sys) (buf0 bufF : List Nat) (script : List RecvRes)
       (total : Nat),
       conn.fp = none → conn.socket_fd ∈ sys.reg →
       drainLoop script buf0 0 = some (total, bufF, RecvTerm.eagain) →
       bufF.take 4 = ackToken →
       readHandler conn sys buf0 script
         = some (Except.ok ({ conn with socket_fd := 0 },
             Sys.mk (sys.reg.erase conn.socket_fd) (sys.closed ++ [conn.socket_fd])
               (sys.cnt - 1), true))) ∧
    (∀ (conn : Conn) (sys : Sys) (buf0 bufF : List Nat) (script : List RecvRes)
       (total : Nat) (src : List Nat),
       conn.fp = some src →
       drainLoop script buf0 0 = some (total, bufF, RecvTerm.eagain) →
       bufF.take 4 = ackToken →
       readHandler conn sys buf0 script = some (Except.ok (conn, sys, true))) ∧
    (∀ (fd : Nat) (cbuf buf0 bufF : List Nat) (sys : Sys) (script : List RecvRes)
       (total : Nat) (r : SendRes),
       fd ≠ 0 → fd ∈ sys.reg →
       drainLoop script buf0 0 = some (total, bufF, RecvTerm.eagain) →
       bufF.take 4 = ackToken →
       handleEvent (Conn.mk fd (some []) cbuf) sys (EventInput.mk true true buf0 script r)
         = some (Except.ok (Conn.mk 0 none cbuf,
             Sys.mk (sys.reg.erase fd) (sys.closed ++ [fd]) (sys.cnt - 1), []))) := by
  have key2 : ∀ (conn : Conn) (sys : Sys) (buf0 bufF : List Nat) (script : List RecvRes)
      (total : Nat) (src : List Nat),
      conn.fp = some src →
      drainLoop script buf0 0 = some (total, bufF, RecvTerm.eagain) →
      bufF.take 4 = ackToken →
      readHandler conn sys buf0 script = some (Except.ok (conn, sys, true)) := by
    intro conn sys buf0 bufF script total src hfp hdrain hack
    unfold readHandler
    simp only [hdrain]
    have hsw : recvSwitch conn sys total RecvTerm.eagain = Except.ok (conn, sys) := rfl
    simp only [hsw]
    unfold ackCheck
    rw [if_pos hack, if_neg (by simp [hfp])]
  refine ⟨?_, key2, ?_⟩
  · intro conn sys buf0 bufF script total hfp hmem hdrain hack
    unfold readHandler
    simp only [hdrain]
    have hsw : recvSwitch conn sys total RecvTerm.eagain = Except.ok (conn, sys) := rfl
    simp only [hsw]
    unfold ackCheck close_connection
    rw [if_pos hack, if_pos hfp, if_pos hmem]
  · intro fd cbuf buf0 bufF sys script total r hfd hmem hdrain hack
    have hrh := key2 (Conn.mk fd (some []) cbuf) sys buf0 bufF script total [] rfl
      hdrain hack
    have hwz := writeHandler_zero_read_ack fd cbuf sys r hfd hmem
    unfold handleEvent
    simp only [hrh, hwz, if_true]

/-- Witness for the amended C1 at concrete inputs: the three
constellations of token arrival around exhaustion. -/
theorem ack_and_exhaustion_amended_witness :
    readHandler (Conn.mk 5 none (zeros 64)) (Sys.mk [5] [] 1) (zeros 64)
      [RecvRes.bytes ackToken, RecvRes.eagain]
      = some (Except.ok (Conn.mk 0 none (zeros 64), Sys.mk [] [5] 0, true)) ∧
    readHandler (Conn.mk 5 (some [1, 2, 3]) (zeros 64)) (Sys.mk [5] [] 1) (zeros 64)
      [RecvRes.bytes ackToken, RecvRes.eagain]
      = some (Except.ok (Conn.mk 5 (some [1, 2, 3]) (zeros 64), Sys.mk [5] [] 1, true)) ∧
    handleEvent (Conn.mk 5 (some []) (zeros 64)) (Sys.mk [5] [] 1)
      (EventInput.mk true true (zeros 64) [RecvRes.bytes ackToken, RecvRes.eagain]
        (SendRes.ok 0))
      = some (Except.ok (Conn.mk 0 none (zeros 64), Sys.mk [] [5] 0, [])) := by
  have h := ack_and_exhaustion_amended
  refine ⟨?_, ?_, ?_⟩
  · have h1 := h.1 (Conn.mk 5 none (zeros 64)) (Sys.mk [5] [] 1) (zeros 64)
      (ackToken ++ zeros 60) [RecvRes.bytes ackToken, RecvRes.eagain] 4
      rfl (by decide) (by decide) (by decide)
    exact h1.trans rfl
  · have h2 := h.2.1 (Conn.mk 5 (some [1, 2, 3]) (zeros 64)) (Sys.mk [5] [] 1) (zeros 64)
      (ackToken ++ zeros 60) [RecvRes.bytes ackToken, RecvRes.eagain] 4 [1, 2, 3]
      rfl (by decide) (by decide)
    exact h2
  · have h3 := h.2.2 5 (zeros 64) (zeros 64) (ackToken ++ zeros 60) (Sys.mk [5] [] 1)
      [RecvRes.bytes ackToken, RecvRes.eagain] 4 (SendRes.ok 0)
      (by decide) (by decide) (by decide) (by decide)
    exact h3.trans rfl

end ClientC
